import Mathlib

/-!
Shallow embedding of `src/observer.h` (namespace `Observer`): a generic
multicast observer library with two listener containers (`RawContainer`
holding raw pointers, `SmartContainer` holding weak pointers), a
compile-time capability matcher (`detail::contains` / `detail::cond`),
and a variadic `Source` composing one container per declared capability.

Modelling conventions:
* a raw pointer (and a shared/weak pointer's pointee identity) is a `Nat`;
  `0` is the null pointer;
* a capability (one abstract listener interface in a template pack) is a
  `Nat` identifier; a pack of capabilities is a `List Cap`;
* object lifetime for the weak container is an environment `live : Ptr → Bool`
  telling whether the pointee of a stored weak reference is still alive;
  `weak_ptr::lock` succeeds exactly on live pointees;
* `assert(listener)` is modelled by returning `none` (the program aborts)
  when the pointer is null;
* undefined behaviour (the single-iterator `vector::erase` called with
  `end()`) is modelled by returning `none`;
* a `notify` call is modelled by the trace of listener handles on which the
  member function is invoked, in invocation order.
-/

namespace Observer

/-- A raw pointer value; `0` models the null pointer. -/
abbrev Ptr := Nat

/-- A capability identifier: one abstract listener interface type of a
template parameter pack. -/
abbrev Cap := Nat

/-- Liveness environment for the weak container: whether the object a stored
weak reference points to is still alive. -/
abbrev Live := Ptr → Bool

/-- `RawContainer::attach`: `assert(listener); m_listeners.push_back(listener);`.
The assertion failure on a null pointer is `none`; otherwise the pointer is
appended to the collection. -/
def RawContainer.attach (st : List Ptr) (p : Ptr) : Option (List Ptr) :=
  if p = 0 then none else some (st ++ [p])

/-- `RawContainer::detach`:
`m_listeners.erase(std::remove_if(m_listeners.begin(), m_listeners.end(), listener));`.
As written, `std::remove_if` is handed the pointer itself where a predicate is
required (ill-formed once instantiated); the evident intent, per the
documentation comment, is removal by value, so the shifting step is modelled
as `std::remove`: the kept (non-matching) elements are moved to the front, the
tail positions keep their previous values, and the returned iterator is
`begin() + kept.length`. The genuine runtime bug is kept: the SINGLE-iterator
`erase` overload is used, so only the one element at the returned position is
erased; when nothing matched the returned iterator is `end()` and
`erase(end())` is undefined behaviour, modelled as `none`. -/
def RawContainer.detach (st : List Ptr) (p : Ptr) : Option (List Ptr) :=
  let kept := st.filter (fun x => !(x == p))
  if kept.length = st.length then none
  else some (kept ++ st.drop (kept.length + 1))

/-- `RawContainer::notify`: invokes the member function on every stored
pointer in storage order; the invocation trace is the stored list itself. -/
def RawContainer.notifyTrace (st : List Ptr) : List Ptr := st

/-- `RawContainer::notify` with a fallible callback: invoke the operation on
each stored pointer in order; a raised error aborts the loop and propagates.
Returns the trace of invoked pointers and the propagated error, if any. -/
def RawContainer.notifyExc {E : Type} (op : Ptr → Except E Unit) :
    List Ptr → List Ptr × Option E
  | [] => ([], none)
  | p :: rest =>
    match op p with
    | Except.error e => ([p], some e)
    | Except.ok _ =>
      let r := RawContainer.notifyExc op rest
      (p :: r.1, r.2)

/-- `SmartContainer::attach`: `assert(listener); m_listeners.push_back(listener);`
(the shared pointer is converted to a weak pointer on storage). -/
def SmartContainer.attach (st : List Ptr) (p : Ptr) : Option (List Ptr) :=
  if p = 0 then none else some (st ++ [p])

/-- `weak_ptr::lock`: yields the pointee while it is alive, nothing after it
has been destroyed. -/
def lock (live : Live) (w : Ptr) : Option Ptr :=
  if live w then some w else none

/-- The predicate of `SmartContainer::detach`:
`auto ptr = weakListener.lock(); return ptr == listener || ptr.empty();`.
(`shared_ptr` has no member `empty()`; the evident intent is emptiness of the
locked pointer, i.e. the reference has expired.) -/
def SmartContainer.detachPred (live : Live) (target : Ptr) (w : Ptr) : Bool :=
  match lock live w with
  | some q => q == target
  | none => true

/-- `SmartContainer::detach`:
`m_listeners.erase(std::remove_if(begin, end, pred));` with the predicate
`SmartContainer.detachPred`. As in the raw container, the shifting of
`std::remove_if` is followed by the SINGLE-iterator `erase`, so exactly one
element is erased; if no element satisfied the predicate, `erase(end())` is
undefined behaviour, modelled as `none`. -/
def SmartContainer.detach (live : Live) (st : List Ptr) (target : Ptr) :
    Option (List Ptr) :=
  let kept := st.filter (fun w => !(SmartContainer.detachPred live target w))
  if kept.length = st.length then none
  else some (kept ++ st.drop (kept.length + 1))

/-- `SmartContainer::notify`: for each stored weak reference in storage order,
lock it; on success invoke the member function on the pointee, on failure skip
silently. Returns the invocation trace together with the collection as it
stands after the loop (the loop only reads `m_listeners`). -/
def SmartContainer.notify (live : Live) : List Ptr → List Ptr × List Ptr
  | [] => ([], [])
  | w :: rest =>
    let r := SmartContainer.notify live rest
    ((if live w then [w] else []) ++ r.1, w :: r.2)

/-- `SmartContainer::notify` with a fallible callback: expired references are
skipped; a raised error from an invoked callback aborts the loop and
propagates. Returns the trace of invoked pointees and the error, if any. -/
def SmartContainer.notifyExc {E : Type} (live : Live) (op : Ptr → Except E Unit) :
    List Ptr → List Ptr × Option E
  | [] => ([], none)
  | w :: rest =>
    if live w then
      match op w with
      | Except.error e => ([w], some e)
      | Except.ok _ =>
        let r := SmartContainer.notifyExc live op rest
        (w :: r.1, r.2)
    else SmartContainer.notifyExc live op rest

namespace detail

/-- `detail::contains<T, Args...>`: `std::disjunction<std::is_same<T, Args>...>`,
i.e. membership of the capability in the pack. -/
def contains (t : Cap) (args : List Cap) : Bool :=
  args.any (fun a => a == t)

/-- `detail::cond<Contains, T_Container>::attach`: when the condition holds,
forward to the container of capability `c` inside the source's store (the
`static_cast<T_Container*>(s)` base-subobject selection); otherwise do
nothing at all. -/
def cond.attach (g : Bool) (att : List Ptr → Ptr → Option (List Ptr))
    (store : Cap → List Ptr) (c : Cap) (p : Ptr) : Option (Cap → List Ptr) :=
  if g then
    (att (store c) p).map (fun st => fun c2 => if c2 = c then st else store c2)
  else some store

/-- `detail::cond<Contains, T_Container>::detach`: the detach counterpart. -/
def cond.detach (g : Bool) (det : List Ptr → Ptr → Option (List Ptr))
    (store : Cap → List Ptr) (c : Cap) (p : Ptr) : Option (Cap → List Ptr) :=
  if g then
    (det (store c) p).map (fun st => fun c2 => if c2 = c then st else store c2)
  else some store

end detail

/-- A `Listener<Args...>` bundle handle: the pack of capabilities the concrete
listener declares, and the identity of the listener object. -/
structure Bundle where
  caps : List Cap
  ptr : Ptr

/-- The fold inside `Source::attach`:
`(cond<contains<Args, T_Listeners...>::value, T_Container<Args>>::attach(this, listener), ...)`
— left to right over the listener's pack `Args...`, guarded per capability by
membership in the source's pack. An assertion failure aborts the sequence. -/
def Source.attachAux (srcCaps : List Cap) (att : List Ptr → Ptr → Option (List Ptr))
    (p : Ptr) : List Cap → (Cap → List Ptr) → Option (Cap → List Ptr)
  | [], store => some store
  | c :: rest, store =>
    match detail.cond.attach (detail.contains c srcCaps) att store c p with
    | none => none
    | some store2 => Source.attachAux srcCaps att p rest store2

/-- `Source::attach(Listener<Args...>*)` (the shared-pointer overload has the
identical body): run the capability matcher over the listener's declared pack
and attach into each container whose capability both sides declare. -/
def Source.attach (srcCaps : List Cap) (att : List Ptr → Ptr → Option (List Ptr))
    (store : Cap → List Ptr) (l : Bundle) : Option (Cap → List Ptr) :=
  Source.attachAux srcCaps att l.ptr l.caps store

/-- The fold inside `Source::detach`, mirror image of `Source.attachAux`. -/
def Source.detachAux (srcCaps : List Cap) (det : List Ptr → Ptr → Option (List Ptr))
    (p : Ptr) : List Cap → (Cap → List Ptr) → Option (Cap → List Ptr)
  | [], store => some store
  | c :: rest, store =>
    match detail.cond.detach (detail.contains c srcCaps) det store c p with
    | none => none
    | some store2 => Source.detachAux srcCaps det p rest store2

/-- `Source::detach(Listener<Args...>*)` (and the shared-pointer overload). -/
def Source.detach (srcCaps : List Cap) (det : List Ptr → Ptr → Option (List Ptr))
    (store : Cap → List Ptr) (l : Bundle) : Option (Cap → List Ptr) :=
  Source.detachAux srcCaps det l.ptr l.caps store

/-- `Source::notify` for a raw-container source: delegates to the one
container owning the capability; the invocation trace is that container's. -/
def Source.notifyTrace (store : Cap → List Ptr) (c : Cap) : List Ptr :=
  RawContainer.notifyTrace (store c)

/-- `attach(L)` immediately followed by `detach(L)` on the same source. -/
def Source.roundTrip (srcCaps : List Cap)
    (att det : List Ptr → Ptr → Option (List Ptr))
    (store : Cap → List Ptr) (l : Bundle) : Option (Cap → List Ptr) :=
  match Source.attach srcCaps att store l with
  | none => none
  | some s2 => Source.detach srcCaps det s2 l

/-- Iterated `Source::attach` of the same listener bundle. -/
def Source.attachTimes (srcCaps : List Cap)
    (att : List Ptr → Ptr → Option (List Ptr)) (l : Bundle) :
    Nat → (Cap → List Ptr) → Option (Cap → List Ptr)
  | 0, store => some store
  | Nat.succ n, store =>
    match Source.attach srcCaps att store l with
    | none => none
    | some s2 => Source.attachTimes srcCaps att l n s2

/-- A sequence of container-level `attach` calls, in order. -/
def attachAll (att : List Ptr → Ptr → Option (List Ptr)) :
    List Ptr → List Ptr → Option (List Ptr)
  | st, [] => some st
  | st, h :: rest =>
    match att st h with
    | none => none
    | some st2 => attachAll att st2 rest

/-- A handle to a concrete listener type `T` deriving from `Listener<Args...>`:
`static_pointer_cast<typename T::ListenerType>` retargets the static type to
the `Listener<Args...>` base while preserving the pointee object, so the
concrete handle is its bundle view. -/
structure ConcreteListener where
  base : Bundle

/-- `std::static_pointer_cast<typename T::ListenerType>(listener)`. -/
def toListenerBase (t : ConcreteListener) : Bundle := t.base

/-- `Source::attach(const std::shared_ptr<T>&)`, the convenience overload:
casts to the `ListenerType` base and calls the direct shared-pointer
overload. -/
def Source.attachConv (srcCaps : List Cap)
    (att : List Ptr → Ptr → Option (List Ptr))
    (store : Cap → List Ptr) (t : ConcreteListener) : Option (Cap → List Ptr) :=
  Source.attach srcCaps att store (toListenerBase t)

/-- `Source::detach(const std::shared_ptr<T>&)`, the convenience overload. -/
def Source.detachConv (srcCaps : List Cap)
    (det : List Ptr → Ptr → Option (List Ptr))
    (store : Cap → List Ptr) (t : ConcreteListener) : Option (Cap → List Ptr) :=
  Source.detach srcCaps det store (toListenerBase t)

/-- Number of occurrences of a capability (or pointer) in a pack. -/
def countCap (c : Nat) : List Nat → Nat
  | [] => 0
  | a :: rest => (if a = c then 1 else 0) + countCap c rest

theorem countCap_append (p : Nat) (a b : List Nat) :
    countCap p (a ++ b) = countCap p a + countCap p b := by
  induction a with
  | nil => simp [countCap]
  | cons x rest ih => simp [countCap, ih]; omega

theorem countCap_replicate_self (p : Nat) (n : Nat) :
    countCap p (List.replicate n p) = n := by
  induction n with
  | zero => rfl
  | succ m ih => simp [List.replicate_succ, countCap, ih]; omega

theorem countCap_filter (p : Nat) (q : Nat → Bool) (st : List Nat) :
    countCap p (st.filter q) = if q p then countCap p st else 0 := by
  induction st with
  | nil => simp [countCap]
  | cons x rest ih =>
    by_cases hx : x = p
    · subst hx
      by_cases hq : q x
      · simp [List.filter, hq, countCap, ih]
      · simp [List.filter, hq, countCap, ih]
    · by_cases hq : q x
      · simp [List.filter, hq, countCap, hx, ih]
      · simp [List.filter, hq, countCap, hx, ih]

theorem smartNotify_eq (live : Live) (st : List Ptr) :
    SmartContainer.notify live st = (st.filter live, st) := by
  induction st with
  | nil => rfl
  | cons w rest ih =>
    by_cases hw : live w
    · simp [SmartContainer.notify, ih, List.filter, hw]
    · simp [SmartContainer.notify, ih, List.filter, hw]

theorem attachAux_spec (srcCaps : List Cap) (p : Ptr) (hp : p ≠ 0)
    (att : List Ptr → Ptr → Option (List Ptr))
    (hatt : ∀ (st : List Ptr) (q : Ptr), q ≠ 0 → att st q = some (st ++ [q])) :
    ∀ (caps : List Cap) (store : Cap → List Ptr) (c : Cap),
      (Source.attachAux srcCaps att p caps store).map (fun f => f c) =
        some (store c ++ List.replicate
          (if detail.contains c srcCaps then countCap c caps else 0) p) := by
  intro caps
  induction caps with
  | nil =>
    intro store c
    simp [Source.attachAux, countCap]
  | cons a rest ih =>
    intro store c
    by_cases hg : detail.contains a srcCaps
    · have hstep : Source.attachAux srcCaps att p (a :: rest) store =
          Source.attachAux srcCaps att p rest
            (fun c2 => if c2 = a then store a ++ [p] else store c2) := by
        simp [Source.attachAux, detail.cond.attach, hg, hatt _ p hp]
      rw [hstep, ih]
      by_cases hc : c = a
      · subst hc
        have h1 : (1 : Nat) + countCap c rest = countCap c rest + 1 :=
          Nat.add_comm _ _
        simp [hg, countCap, h1, List.replicate_succ, List.append_assoc]
      · have hac : ¬(a = c) := fun h => hc h.symm
        simp [hc, hac, countCap]
    · have hstep : Source.attachAux srcCaps att p (a :: rest) store =
          Source.attachAux srcCaps att p rest store := by
        simp [Source.attachAux, detail.cond.attach, hg]
      rw [hstep, ih]
      by_cases hcs : detail.contains c srcCaps
      · have hac : ¬(a = c) := fun h => hg (by rw [h]; exact hcs)
        simp [hcs, hac, countCap]
      · simp [hcs]

theorem attachTimes_spec (srcCaps : List Cap) (l : Bundle) (hp : l.ptr ≠ 0)
    (att : List Ptr → Ptr → Option (List Ptr))
    (hatt : ∀ (st : List Ptr) (q : Ptr), q ≠ 0 → att st q = some (st ++ [q])) :
    ∀ (n : Nat) (store : Cap → List Ptr) (c : Cap),
      (Source.attachTimes srcCaps att l n store).map (fun f => f c) =
        some (store c ++ List.replicate
          (n * (if detail.contains c srcCaps then countCap c l.caps else 0)) l.ptr) := by
  intro n
  induction n with
  | zero =>
    intro store c
    simp [Source.attachTimes]
  | succ m ih =>
    intro store c
    have hone := attachAux_spec srcCaps l.ptr hp att hatt l.caps store
    rcases hres : Source.attachAux srcCaps att l.ptr l.caps store with _ | f
    · have := hone c
      rw [hres] at this
      simp at this
    · have hstep : Source.attachTimes srcCaps att l (m + 1) store =
          Source.attachTimes srcCaps att l m f := by
        simp [Source.attachTimes, Source.attach, hres]
      rw [hstep, ih]
      have hfc : f c = store c ++ List.replicate
          (if detail.contains c srcCaps then countCap c l.caps else 0) l.ptr := by
        have := hone c
        rw [hres] at this
        simpa using this
      rw [hfc]
      have harith : (if detail.contains c srcCaps then countCap c l.caps else 0) +
          m * (if detail.contains c srcCaps then countCap c l.caps else 0) =
          (m + 1) * (if detail.contains c srcCaps then countCap c l.caps else 0) := by
        ring
      rw [List.append_assoc, ← List.replicate_add, harith]

theorem countCap_eq_zero_of_not_contains (c : Cap) (caps : List Cap)
    (h : detail.contains c caps = false) : countCap c caps = 0 := by
  induction caps with
  | nil => rfl
  | cons a rest ih =>
    simp only [detail.contains, List.any_cons, Bool.or_eq_false_iff] at h
    have hrest : detail.contains c rest = false := h.2
    have ha : ¬(a = c) := by simpa using h.1
    simp [countCap, ha, ih hrest]

/-- Claim C1: for a source with declared capability set `srcCaps` and a
listener bundle `l` with non-null handle, after `n` attach calls a notify of
a capability `c` the source declares invokes the operation on `l` exactly
once per prior attach call when `l` also declares `c` (so two attaches give
two invocations per notify), and never when `l` does not declare `c` — for
both the raw-pointer and the weak-pointer container variants (the listener
being alive in the weak case). -/
theorem capability_matched_notify_count
    (srcCaps : List Cap) (l : Bundle) (c : Cap) (store : Cap → List Ptr)
    (n : Nat) (live : Live)
    (hp : l.ptr ≠ 0) (h0 : countCap l.ptr (store c) = 0)
    (hcs : detail.contains c srcCaps = true) (hlv : live l.ptr = true) :
    (countCap c l.caps = 1 →
      ((Source.attachTimes srcCaps RawContainer.attach l n store).map
          (fun f => countCap l.ptr (RawContainer.notifyTrace (f c))) = some n ∧
       (Source.attachTimes srcCaps SmartContainer.attach l n store).map
          (fun f => countCap l.ptr ((SmartContainer.notify live (f c)).1)) = some n)) ∧
    (detail.contains c l.caps = false →
      ((Source.attachTimes srcCaps RawContainer.attach l n store).map
          (fun f => countCap l.ptr (RawContainer.notifyTrace (f c))) = some 0 ∧
       (Source.attachTimes srcCaps SmartContainer.attach l n store).map
          (fun f => countCap l.ptr ((SmartContainer.notify live (f c)).1)) = some 0)) := by
  have hattR : ∀ (st : List Ptr) (q : Ptr), q ≠ 0 →
      RawContainer.attach st q = some (st ++ [q]) := by
    intro st q hq
    simp [RawContainer.attach, hq]
  have hattS : ∀ (st : List Ptr) (q : Ptr), q ≠ 0 →
      SmartContainer.attach st q = some (st ++ [q]) := by
    intro st q hq
    simp [SmartContainer.attach, hq]
  have hspecR := attachTimes_spec srcCaps l hp RawContainer.attach hattR n store c
  have hspecS := attachTimes_spec srcCaps l hp SmartContainer.attach hattS n store c
  have hcount : ∀ (k : Nat),
      countCap l.ptr (store c ++ List.replicate k l.ptr) = k := by
    intro k
    rw [countCap_append, h0, countCap_replicate_self]
    omega
  have hmain : ∀ (k : Nat), countCap c l.caps = k →
      ((Source.attachTimes srcCaps RawContainer.attach l n store).map
          (fun f => countCap l.ptr (RawContainer.notifyTrace (f c))) = some (n * k) ∧
       (Source.attachTimes srcCaps SmartContainer.attach l n store).map
          (fun f => countCap l.ptr ((SmartContainer.notify live (f c)).1)) = some (n * k)) := by
    intro k hk
    constructor
    · rcases hres : Source.attachTimes srcCaps RawContainer.attach l n store with _ | f
      · rw [hres] at hspecR
        simp at hspecR
      · rw [hres] at hspecR
        have hfc : f c = store c ++ List.replicate
            (n * (if detail.contains c srcCaps then countCap c l.caps else 0)) l.ptr := by
          simpa using hspecR
        simp [RawContainer.notifyTrace, hfc, hcs, hk, hcount]
    · rcases hres : Source.attachTimes srcCaps SmartContainer.attach l n store with _ | f
      · rw [hres] at hspecS
        simp at hspecS
      · rw [hres] at hspecS
        have hfc : f c = store c ++ List.replicate
            (n * (if detail.contains c srcCaps then countCap c l.caps else 0)) l.ptr := by
          simpa using hspecS
        simp [smartNotify_eq, hfc, hcs, hk, countCap_filter, hlv, hcount]
  constructor
  · intro h1
    have h2 := hmain 1 h1
    rw [Nat.mul_one] at h2
    exact h2
  · intro h1
    have h2 := hmain 0 (countCap_eq_zero_of_not_contains c l.caps h1)
    rw [Nat.mul_zero] at h2
    exact h2

/-- Witness for C1 at a concrete source `{0, 1}` and listener `{0, 2}` with
handle `5`, attached twice: a notify of capability `0` reaches the listener
twice in both container variants. -/
theorem capability_matched_notify_count_witness :
    (5 : Ptr) ≠ 0 ∧
    ((Source.attachTimes [0, 1] RawContainer.attach ⟨[0, 2], 5⟩ 2
        (fun _ => ([] : List Ptr))).map
        (fun f => countCap 5 (RawContainer.notifyTrace (f 0))) = some 2 ∧
     (Source.attachTimes [0, 1] SmartContainer.attach ⟨[0, 2], 5⟩ 2
        (fun _ => ([] : List Ptr))).map
        (fun f => countCap 5 ((SmartContainer.notify (fun q => decide (q = 5)) (f 0)).1)) =
        some 2) :=
  ⟨by decide,
   (capability_matched_notify_count [0, 1] ⟨[0, 2], 5⟩ 0 (fun _ => []) 2
      (fun q => decide (q = 5)) (by decide) (by decide) (by decide) (by decide)).1
     (by decide)⟩

/-- Claim C2 fails on the code: `RawContainer::detach` erases only the single
element at the iterator returned by the remove shift. A handle attached twice
survives its own detach (`[5, 5]` detaching `5` leaves `[5]`), and detaching a
handle that was never attached calls `erase(end())`, undefined behaviour
(modelled `none`), instead of being a silent no-op. -/
theorem raw_detach_divergence :
    RawContainer.detach [5, 5] 5 = some [5] ∧
    RawContainer.detach [7] 5 = none := by decide

/-- Claim C3 fails on the code: with one live matching entry `1` and one
expired entry `9`, `SmartContainer::detach 1` erases only one element, leaving
the expired entry `9` in the container instead of pruning it; and when no
entry matches and none is expired, the call is `erase(end())`, undefined
behaviour (modelled `none`), instead of leaving the live non-matching entry in
place. -/
theorem smart_detach_divergence :
    SmartContainer.detach (fun h => decide (h < 5)) [1, 9] 1 = some [9] ∧
    SmartContainer.detach (fun h => decide (h < 5)) [2] 1 = none := by decide

/-- Claim C4: weak-container notify invokes the operation exactly on the
stored handles whose object is still live, in storage order, silently skips
expired handles, leaves the stored registration list unchanged, and hence a
handle whose object was destroyed is never invoked. -/
theorem smart_notify_skips_expired (live : Live) (st : List Ptr) (p : Ptr) :
    SmartContainer.notify live st = (st.filter live, st) ∧
    (live p = false → p ∉ (SmartContainer.notify live st).1) := by
  refine ⟨smartNotify_eq live st, ?_⟩
  intro hdead hmem
  rw [smartNotify_eq] at hmem
  have hl := List.of_mem_filter hmem
  rw [hdead] at hl
  simp at hl

/-- Witness for C4: handle `2` is expired in the container `[1, 2]` and the
notify trace does not contain it. -/
theorem smart_notify_skips_expired_witness :
    (fun q => decide (q = 1)) 2 = false ∧
    2 ∉ (SmartContainer.notify (fun q => decide (q = 1)) [1, 2]).1 :=
  ⟨by decide,
   (smart_notify_skips_expired (fun q => decide (q = 1)) [1, 2] 2).2 (by decide)⟩

/-- Claim C5 fails on the code: with the raw source declaring capability `0`
and the listener (handle `5`) already present once in the container,
`attach` then `detach` leaves one copy of the handle behind (the single-element
erase bug), so the following notify still invokes the listener. -/
theorem round_trip_divergence :
    (Source.roundTrip [0] RawContainer.attach RawContainer.detach
        (fun _ => [5]) ⟨[0], 5⟩).map (fun f => RawContainer.notifyTrace (f 0)) =
      some [5] := by decide

theorem attachAll_spec (att : List Ptr → Ptr → Option (List Ptr))
    (hatt : ∀ (st : List Ptr) (q : Ptr), q ≠ 0 → att st q = some (st ++ [q])) :
    ∀ (hs st : List Ptr), (∀ x ∈ hs, x ≠ 0) →
      attachAll att st hs = some (st ++ hs) := by
  intro hs
  induction hs with
  | nil =>
    intro st _
    simp [attachAll]
  | cons a rest ih =>
    intro st h
    have ha : a ≠ 0 := h a (by simp)
    simp only [attachAll, hatt st a ha]
    rw [ih (st ++ [a]) (fun x hx => h x (by simp [hx]))]
    simp

/-- Claim C6: a sequence of attach calls with no intervening detach, replayed
on an empty container, yields a notify trace equal to the attach sequence
itself — oldest first, duplicates at their own positions — in the raw
container, and likewise in the weak container when the listeners are alive. -/
theorem notify_order_matches_attach_order (hs : List Ptr) (live : Live)
    (hnn : ∀ x ∈ hs, x ≠ 0) (hlv : ∀ x ∈ hs, live x = true) :
    (attachAll RawContainer.attach [] hs).map RawContainer.notifyTrace = some hs ∧
    (attachAll SmartContainer.attach [] hs).map
        (fun st => (SmartContainer.notify live st).1) = some hs := by
  have hR := attachAll_spec RawContainer.attach
    (by intro st q hq; simp [RawContainer.attach, hq]) hs [] hnn
  have hS := attachAll_spec SmartContainer.attach
    (by intro st q hq; simp [SmartContainer.attach, hq]) hs [] hnn
  constructor
  · rw [hR]
    simp [RawContainer.notifyTrace]
  · rw [hS]
    simp only [List.nil_append, Option.map_some', smartNotify_eq, Option.some.injEq]
    exact List.filter_eq_self.mpr (fun a ha => hlv a ha)

/-- Witness for C6 at the attach sequence `[3, 7, 3]` (with a duplicate). -/
theorem notify_order_matches_attach_order_witness :
    (∀ x ∈ [3, 7, 3], x ≠ 0) ∧
    ((attachAll RawContainer.attach [] [3, 7, 3]).map RawContainer.notifyTrace =
        some [3, 7, 3] ∧
     (attachAll SmartContainer.attach [] [3, 7, 3]).map
        (fun st => (SmartContainer.notify (fun _ => true) st).1) = some [3, 7, 3]) :=
  ⟨by decide,
   notify_order_matches_attach_order [3, 7, 3] (fun _ => true) (by decide) (by decide)⟩

theorem attachAux_disjoint (srcCaps : List Cap)
    (att : List Ptr → Ptr → Option (List Ptr)) (p : Ptr) :
    ∀ (caps : List Cap) (store : Cap → List Ptr),
      (∀ c ∈ caps, detail.contains c srcCaps = false) →
      Source.attachAux srcCaps att p caps store = some store := by
  intro caps
  induction caps with
  | nil =>
    intro store _
    rfl
  | cons a rest ih =>
    intro store h
    have ha := h a (by simp)
    simp only [Source.attachAux, detail.cond.attach, ha, Bool.false_eq_true, if_false]
    exact ih store (fun c hc => h c (by simp [hc]))

/-- Claim C7: attaching a listener bundle whose declared capability set is
disjoint from the source's declared set is a complete no-op in both container
variants: every container keeps exactly its previous contents and no error
(not even the null-handle assertion) is signalled. -/
theorem disjoint_attach_noop (srcCaps : List Cap) (store : Cap → List Ptr)
    (l : Bundle) (hdisj : ∀ c ∈ l.caps, detail.contains c srcCaps = false) :
    Source.attach srcCaps RawContainer.attach store l = some store ∧
    Source.attach srcCaps SmartContainer.attach store l = some store :=
  ⟨attachAux_disjoint srcCaps RawContainer.attach l.ptr l.caps store hdisj,
   attachAux_disjoint srcCaps SmartContainer.attach l.ptr l.caps store hdisj⟩

/-- Witness for C7: listener `{3, 4}` with handle `7` attached to a source
declaring `{1, 2}` leaves the store untouched. -/
theorem disjoint_attach_noop_witness :
    (∀ c ∈ [3, 4], detail.contains c [1, 2] = false) ∧
    (Source.attach [1, 2] RawContainer.attach (fun _ => [9]) ⟨[3, 4], 7⟩ =
        some (fun _ => [9]) ∧
     Source.attach [1, 2] SmartContainer.attach (fun _ => [9]) ⟨[3, 4], 7⟩ =
        some (fun _ => [9])) :=
  ⟨by decide, disjoint_attach_noop [1, 2] (fun _ => [9]) ⟨[3, 4], 7⟩ (by decide)⟩

theorem notifyExc_all_ok_raw {E : Type} (op : Ptr → Except E Unit) :
    ∀ st : List Ptr, (∀ h ∈ st, op h = Except.ok ()) →
      RawContainer.notifyExc op st = (st, none) := by
  intro st
  induction st with
  | nil =>
    intro _
    rfl
  | cons p rest ih =>
    intro h
    have hp := h p (by simp)
    simp [RawContainer.notifyExc, hp, ih (fun x hx => h x (by simp [hx]))]

theorem notifyExc_all_ok_smart {E : Type} (live : Live) (op : Ptr → Except E Unit) :
    ∀ st : List Ptr, (∀ h ∈ st, live h = true → op h = Except.ok ()) →
      SmartContainer.notifyExc live op st = (st.filter live, none) := by
  intro st
  induction st with
  | nil =>
    intro _
    rfl
  | cons w rest ih =>
    intro h
    have ihr := ih (fun x hx hl => h x (by simp [hx]) hl)
    by_cases hw : live w
    · have hop := h w (by simp) hw
      simp [SmartContainer.notifyExc, hw, hop, ihr, List.filter]
    · simp [SmartContainer.notifyExc, hw, ihr, List.filter]

theorem notifyExc_error_raw {E : Type} (op : Ptr → Except E Unit) (x : Ptr)
    (e : E) (post : List Ptr) (hx : op x = Except.error e) :
    ∀ pre : List Ptr, (∀ h ∈ pre, op h = Except.ok ()) →
      RawContainer.notifyExc op (pre ++ x :: post) = (pre ++ [x], some e) := by
  intro pre
  induction pre with
  | nil =>
    intro _
    simp [RawContainer.notifyExc, hx]
  | cons p rest ih =>
    intro h
    have hp := h p (by simp)
    simp [RawContainer.notifyExc, hp, ih (fun y hy => h y (by simp [hy]))]

theorem notifyExc_error_smart {E : Type} (live : Live) (op : Ptr → Except E Unit)
    (x : Ptr) (e : E) (post : List Ptr)
    (hx : op x = Except.error e) (hlx : live x = true) :
    ∀ pre : List Ptr, (∀ h ∈ pre, live h = true → op h = Except.ok ()) →
      SmartContainer.notifyExc live op (pre ++ x :: post) =
        (pre.filter live ++ [x], some e) := by
  intro pre
  induction pre with
  | nil =>
    intro _
    simp [SmartContainer.notifyExc, hlx, hx]
  | cons w rest ih =>
    intro h
    have ihr := ih (fun y hy hl => h y (by simp [hy]) hl)
    by_cases hw : live w
    · have hop := h w (by simp) hw
      simp [SmartContainer.notifyExc, hw, hop, ihr, List.filter]
    · simp [SmartContainer.notifyExc, hw, ihr, List.filter]

/-- Claim C8: during notify, a callback error on one listener aborts the
remaining deliveries of that call and propagates to the caller unchanged
(fail-fast); when no callback raises, all deliveries complete — in the raw
container and, for the live listeners, in the weak container. -/
theorem notify_failfast {E : Type} (op : Ptr → Except E Unit) (live : Live)
    (pre post : List Ptr) (x : Ptr) (e : E)
    (hx : op x = Except.error e) (hlx : live x = true)
    (hpre : ∀ h ∈ pre, op h = Except.ok ()) :
    RawContainer.notifyExc op (pre ++ x :: post) = (pre ++ [x], some e) ∧
    SmartContainer.notifyExc live op (pre ++ x :: post) =
      (pre.filter live ++ [x], some e) ∧
    (∀ st : List Ptr, (∀ h ∈ st, op h = Except.ok ()) →
      RawContainer.notifyExc op st = (st, none)) ∧
    (∀ st : List Ptr, (∀ h ∈ st, live h = true → op h = Except.ok ()) →
      SmartContainer.notifyExc live op st = (st.filter live, none)) :=
  ⟨notifyExc_error_raw op x e post hx pre hpre,
   notifyExc_error_smart live op x e post hx hlx pre (fun h hm _ => hpre h hm),
   notifyExc_all_ok_raw op,
   notifyExc_all_ok_smart live op⟩

/-- Witness for C8: callback raising error `42` on handle `2`, with handles
`[1, 2, 3]` attached — handle `3` is not invoked and the error propagates. -/
theorem notify_failfast_witness :
    ((fun q => if q = 2 then (Except.error 42 : Except Nat Unit) else Except.ok ()) 2 =
        Except.error 42) ∧
    RawContainer.notifyExc
        (fun q => if q = 2 then (Except.error 42 : Except Nat Unit) else Except.ok ())
        ([1] ++ 2 :: [3]) = ([1] ++ [2], some 42) :=
  ⟨rfl,
   (notify_failfast
      (fun q => if q = 2 then (Except.error 42 : Except Nat Unit) else Except.ok ())
      (fun _ => true) [1] [3] 2 42 rfl rfl
      (by intro h hh; simp at hh; subst hh; rfl)).1⟩

/-- Claim C9: in both container variants, attaching the null handle fails the
`assert(listener)` check, and attaching any non-null handle passes the
assertion and appends the handle to the collection. -/
theorem attach_null_assertion (st : List Ptr) (p : Ptr) :
    RawContainer.attach st 0 = none ∧ SmartContainer.attach st 0 = none ∧
    (p ≠ 0 → RawContainer.attach st p = some (st ++ [p]) ∧
      SmartContainer.attach st p = some (st ++ [p])) := by
  refine ⟨by simp [RawContainer.attach], by simp [SmartContainer.attach], ?_⟩
  intro hp
  exact ⟨by simp [RawContainer.attach, hp], by simp [SmartContainer.attach, hp]⟩

/-- Witness for C9 with the non-null handle `2` on the container `[3]`. -/
theorem attach_null_assertion_witness :
    (2 : Ptr) ≠ 0 ∧
    (RawContainer.attach [3] 2 = some [3, 2] ∧
     SmartContainer.attach [3] 2 = some [3, 2]) :=
  ⟨by decide, (attach_null_assertion [3] 2).2.2 (by decide)⟩

/-- Claim C10: the convenience overloads taking a concrete listener handle,
which `static_pointer_cast` the handle to its `ListenerType` base before
delegating, produce exactly the same resulting source state as the direct
overloads applied to the same handle — for attach and detach, for any
container kind. -/
theorem convenience_overload_equiv (srcCaps : List Cap)
    (att det : List Ptr → Ptr → Option (List Ptr))
    (store : Cap → List Ptr) (t : ConcreteListener) :
    Source.attachConv srcCaps att store t = Source.attach srcCaps att store t.base ∧
    Source.detachConv srcCaps det store t = Source.detach srcCaps det store t.base :=
  ⟨rfl, rfl⟩

end Observer
